import Mathlib

/-!
# Reminisce — conversational memory engine, shallow embedding

This file embeds the core of the Reminisce repository (the RAG and
fact-learning pipeline: MemoryStore, PromptComposer, ResponseGenerator,
FactExtractor and the Brain orchestrator) and its frontend call sites,
and proves the specification's claims about them.

The Python package `ai_service` itself is not present in the repository
snapshot (only its documentation, `ai_service/TROUBLESHOOTING.md`, and its
callers are), so the core components are modelled from the specification,
as flagged on each definition.  The frontend call sites
(`frontend/src/components/VoiceChat.jsx` and the Dashboard component) are
present and are embedded directly from their source.
-/

namespace Reminisce

/-- Modelled from the spec: the fixed enumeration of memory categories
(`family, place, preference, event, health, history`); the Python
source defining it is not in the snapshot. -/
inductive Category where
| family
| place
| preference
| event
| health
| history
deriving DecidableEq, Repr

/-- Modelled from the spec: a stored fact.  `MemoryRecord`: identifier,
embedding vector, source text, category, creation timestamp, owning user
identity. -/
structure MemoryRecord where
  id : Nat
  embedding : List Int
  text : String
  category : Category
  timestamp : Nat
  user_id : String
deriving DecidableEq, Repr

/-- Modelled from the spec: a `MemoryRecord` annotated with a similarity
score at query time; ephemeral. -/
structure RetrievedMemory where
  record : MemoryRecord
  score : ℚ
deriving DecidableEq, Repr

/-- Modelled from the spec: the vector index state.  Records live in one
flat index and carry their owning namespace (`user_id`), as in Pinecone;
`nextId` generates fresh identifiers (and creation timestamps). -/
structure Store where
  records : List MemoryRecord
  nextId : Nat
deriving DecidableEq, Repr

/-- Modelled from the spec: a conversation turn is a role tag plus text,
supplied by the caller. -/
structure ConversationTurn where
  role : String
  text : String
deriving DecidableEq, Repr

/-- Modelled from the spec: the error taxonomy (`EmbeddingError`,
`StoreReadError`, `StoreWriteError`, `GenerationError`). -/
inductive AIError where
| embeddingError
| storeReadError
| storeWriteError
| generationError
deriving DecidableEq, Repr

/-- Modelled from the spec: the external collaborators, injected once at
startup.  `embed` is the embedding service (`none` = `EmbeddingError`),
`sim` the vector index's similarity metric, `llm` the language-model
completion service (`none` = upstream failure), and `storeFault` models
the vector-store transport being unreachable (read and write failures). -/
structure Services where
  embed : String → Option (List Int)
  sim : List Int → List Int → ℚ
  llm : String → Option String
  storeFault : Bool

/-- Configuration constant `MEMORY_RELEVANCE_THRESHOLD` (default 0.7). -/
def MEMORY_RELEVANCE_THRESHOLD : ℚ := 7 / 10

/-- Configuration constant `MEMORY_TOP_K` (default 5). -/
def MEMORY_TOP_K : Nat := 5

/-- Configuration constant `MAX_HISTORY_MESSAGES` (default 10). -/
def MAX_HISTORY_MESSAGES : Nat := 10

/-- The records of the namespace owned by `u`. -/
def namespaceOf (st : Store) (u : String) : List MemoryRecord :=
  st.records.filter (fun r => r.user_id == u)

/-- Ranking order on retrieved memories: score descending, ties broken by
most-recent creation timestamp first. -/
def retrievedLE (a b : RetrievedMemory) : Bool :=
  decide (b.score < a.score) ||
    (decide (a.score = b.score) && decide (b.record.timestamp ≤ a.record.timestamp))

/-- Modelled from the spec: score the candidate records, keep those with
score ≥ threshold, sort by `retrievedLE`, return the first `top_k`. -/
def rank (cands : List MemoryRecord) (scoreOf : MemoryRecord → ℚ)
    (top_k : Nat) (threshold : ℚ) : List RetrievedMemory :=
  ((cands.map (fun r => RetrievedMemory.mk r (scoreOf r))).filter
      (fun m => decide (threshold ≤ m.score))).mergeSort retrievedLE
    |>.take top_k

/-- Modelled from the spec: `search_memories` / `MemoryStore.query`: embeds
the query text, searches only the user's namespace, returns at most `top_k`
entries with score ≥ `relevance_threshold`, best first.  Raises
`StoreReadError` only on transport failure, `EmbeddingError` if embedding
fails. -/
def search_memories (svc : Services) (st : Store) (query_text user_id : String)
    (top_k : Nat) (relevance_threshold : ℚ) : Except AIError (List RetrievedMemory) :=
  match svc.embed query_text with
  | none => .error .embeddingError
  | some qv =>
    if svc.storeFault then .error .storeReadError
    else .ok (rank (namespaceOf st user_id) (fun r => svc.sim qv r.embedding)
                top_k relevance_threshold)

/-- Modelled from the spec: `save_memory` / `MemoryStore.upsert`: embeds the
text, generates a fresh unique identifier, writes one `MemoryRecord` into the
user's namespace; `StoreWriteError` on upstream failure. -/
def save_memory (svc : Services) (st : Store) (text user_id : String)
    (category : Category) : Except AIError (Nat × Store) :=
  match svc.embed text with
  | none => .error .embeddingError
  | some v =>
    if svc.storeFault then .error .storeWriteError
    else
      .ok (st.nextId,
        ⟨MemoryRecord.mk st.nextId v text category st.nextId user_id :: st.records,
         st.nextId + 1⟩)

/-- Modelled from the spec: `delete_user_memories` / `delete_all`: removes
every record in the namespace; idempotent. -/
def delete_user_memories (st : Store) (user_id : String) : Store :=
  ⟨st.records.filter (fun r => !(r.user_id == user_id)), st.nextId⟩

/-- Modelled from the spec: `get_memory_stats` / `stats`: the record count of
the namespace. -/
def get_memory_stats (st : Store) (user_id : String) : Nat :=
  (namespaceOf st user_id).length

/- ### PromptComposer -/

/-- One block of the assembled prompt. -/
inductive PromptPart where
| persona (text : String)
| memory (text : String) (score : ℚ)
| turn (role : String) (text : String)
| current (text : String)
deriving DecidableEq, Repr

/-- The last `n` elements of a list, in their original order. -/
def lastN (n : Nat) (xs : List α) : List α :=
  xs.drop (xs.length - n)

/-- Modelled from the spec: the retrieved memories rendered as discrete
facts, in the order given (the store returns them by descending score). -/
def memoriesBlock (mems : List RetrievedMemory) : List PromptPart :=
  mems.map (fun m => PromptPart.memory m.record.text m.score)

/-- Modelled from the spec: the most recent `max_history` turns, in
chronological order. -/
def historyBlock (max_history : Nat) (history : List ConversationTurn) :
    List PromptPart :=
  (lastN max_history history).map (fun t => PromptPart.turn t.role t.text)

/-- Modelled from the spec: `PromptComposer`, a pure function assembling, in
fixed order, the persona block, the memories block, the bounded recent
history, and the current user message; the Python source is not in the
snapshot. -/
def compose_prompt (persona : String) (mems : List RetrievedMemory)
    (history : List ConversationTurn) (message : String) (max_history : Nat) :
    List PromptPart :=
  PromptPart.persona persona ::
    (memoriesBlock mems ++ historyBlock max_history history ++
      [PromptPart.current message])

/-- Text rendering of one prompt part. -/
def renderPart : PromptPart → String
| .persona t => t ++ "\n\n"
| .memory t _ => "- " ++ t ++ "\n"
| .turn r t => r ++ ": " ++ t ++ "\n"
| .current t => "User: " ++ t

/-- Text rendering of the whole prompt. -/
def render_prompt (parts : List PromptPart) : String :=
  String.join (parts.map renderPart)

/-- The memory content of a prompt part, when it is a memory part. -/
def PromptPart.memoryOf : PromptPart → Option (String × ℚ)
| .memory t s => some (t, s)
| _ => none

/-- The turn content of a prompt part, when it is a history turn. -/
def PromptPart.turnOf : PromptPart → Option (String × String)
| .turn r t => some (r, t)
| _ => none

/-- Modelled from the spec: the default persona/system instruction. -/
def SYSTEM_PROMPT : String :=
  "You are Reminisce, a warm and patient companion for seniors."

/- ### ResponseGenerator -/

/-- Strip whitespace from both ends of a character list (the
kernel-reducible counterpart of Python's `str.strip`). -/
def trimChars (cs : List Char) : List Char :=
  ((cs.dropWhile Char.isWhitespace).reverse.dropWhile Char.isWhitespace).reverse

/-- Strip whitespace from both ends of a string. -/
def strTrim (s : String) : String :=
  String.mk (trimChars s.data)

/-- Split a character list on a separator character (the kernel-reducible
counterpart of Python's `str.split(sep)`). -/
def splitOnChar (c : Char) : List Char → List (List Char)
| [] => [[]]
| x :: rest =>
  if x = c then [] :: splitOnChar c rest
  else
    match splitOnChar c rest with
    | [] => [[x]]
    | h :: t => (x :: h) :: t

/-- Modelled from the spec: `ResponseGenerator.generate`: invokes the
language model with the composed prompt; `GenerationError` on upstream
failure or malformed/empty completion; no local fallback text. -/
def generator_generate (svc : Services) (prompt : String) : Except AIError String :=
  match svc.llm prompt with
  | none => .error .generationError
  | some s => if strTrim s = "" then .error .generationError else .ok s

/- ### FactExtractor -/

/-- Parse a category name from the model's output; unrecognized values are
rejected (`none`). -/
def Category.ofString (s : String) : Option Category :=
  if s = "family" then some .family
  else if s = "place" then some .place
  else if s = "preference" then some .preference
  else if s = "event" then some .event
  else if s = "health" then some .health
  else if s = "history" then some .history
  else none

/-- Modelled from the spec: one line of the extraction model's output is
expected to have the shape `fact text | category`; the exact textual format
of the missing Python source is unknown, so this fixes one concrete shape.
A line that does not match (wrong shape, unknown category, empty fact) is
skipped by returning `none`. -/
def parse_fact_line (line : String) : Option (String × Category) :=
  match (splitOnChar '|' line.data).map (fun cs => String.mk cs) with
  | [factText, catText] =>
    match Category.ofString (strTrim catText) with
    | some c =>
      if strTrim factText = "" then none else some (strTrim factText, c)
    | none => none
  | _ => none

/-- The lines of the extraction model's raw response. -/
def extractionLines (raw : String) : List String :=
  (splitOnChar '\n' raw.data).map (fun cs => String.mk cs)

/-- Modelled from the spec: tolerant parsing of the whole extraction
response: malformed lines are dropped, never aborting the extraction. -/
def parse_extraction (raw : String) : List (String × Category) :=
  (extractionLines raw).filterMap parse_fact_line

/-- Modelled from the spec: the extraction-specific prompt over the latest
exchange. -/
def extraction_prompt (user_message assistant_reply : String) : String :=
  "Extract atomic personal facts, one per line, as: fact | category\n" ++
    "User: " ++ user_message ++ "\nAssistant: " ++ assistant_reply

/-- Modelled from the spec: persist each accepted fact via
`MemoryStore.upsert`; a `StoreWriteError` on one fact is caught and that
fact is dropped, never propagated.  Returns the new store and the texts of
the facts actually persisted. -/
def save_facts (svc : Services) (st : Store) (user_id : String) :
    List (String × Category) → Store × List String
| [] => (st, [])
| f :: rest =>
  match save_memory svc st f.1 user_id f.2 with
  | .ok (_, st1) =>
    let out := save_facts svc st1 user_id rest
    (out.1, f.1 :: out.2)
  | .error _ => save_facts svc st user_id rest

/-- Modelled from the spec: the whole learning path (`FactExtractor`):
call the model with the extraction prompt, parse tolerantly, persist each
fact; a model-call failure is caught and yields no facts.  Total: no
failure in this path ever escapes. -/
def run_extraction (svc : Services) (st : Store)
    (user_id user_message assistant_reply : String) : Store × List String :=
  match svc.llm (extraction_prompt user_message assistant_reply) with
  | none => (st, [])
  | some raw => save_facts svc st user_id (parse_extraction raw)

/- ### Brain (orchestrator) -/

/-- Modelled from the spec: the retrieval step of `generate_response`: on
any retrieval failure the pipeline proceeds as if zero memories were
found. -/
def retrieve_memories (svc : Services) (st : Store) (user_id message : String)
    (include_memories : Bool) : List RetrievedMemory :=
  if include_memories then
    match search_memories svc st message user_id MEMORY_TOP_K
        MEMORY_RELEVANCE_THRESHOLD with
    | .ok ms => ms
    | .error _ => []
  else []

/-- The prompt the orchestrator hands to the generator. -/
def brain_prompt (svc : Services) (st : Store) (user_id message : String)
    (history : List ConversationTurn) (include_memories : Bool) : String :=
  render_prompt (compose_prompt SYSTEM_PROMPT
    (retrieve_memories svc st user_id message include_memories)
    history message MAX_HISTORY_MESSAGES)

/-- Modelled from the spec: `generate_response`.  Retrieval failures are
absorbed; a generation failure propagates; fact extraction is
fire-and-forget — it can only grow the store (second component) and never
touches the reply (first component).  The background task's eventual store
effect is modelled as the returned store. -/
def generate_response (svc : Services) (st : Store) (user_id message : String)
    (history : List ConversationTurn) (include_memories extract_facts : Bool) :
    Except AIError String × Store :=
  match generator_generate svc (brain_prompt svc st user_id message history
      include_memories) with
  | .error e => (.error e, st)
  | .ok reply =>
    if extract_facts then
      (.ok reply, (run_extraction svc st user_id message reply).1)
    else (.ok reply, st)

/-- The record returned by `generate_response_sync`. -/
structure SyncResult where
  response : String
  extracted_facts : List String
deriving DecidableEq, Repr

/-- Modelled from the spec: `generate_response_sync`: same pipeline, but the
extraction step is awaited before returning and the persisted facts are
included in the return value. -/
def generate_response_sync (svc : Services) (st : Store)
    (user_id message : String) (history : List ConversationTurn)
    (include_memories : Bool) : Except AIError SyncResult × Store :=
  match generator_generate svc (brain_prompt svc st user_id message history
      include_memories) with
  | .error e => (.error e, st)
  | .ok reply =>
    let out := run_extraction svc st user_id message reply
    (.ok (SyncResult.mk reply out.2), out.1)

/-- Modelled from the spec: `health_check`: independently probes the
language-model service (one trivial generation call) and the vector store
(one count call) and reports a status per dependency; total, so it never
raises. -/
def health_check (svc : Services) (st : Store) : List (String × String) :=
  [("brain", "ok"),
   ("llm", match svc.llm "Hello" with
           | some _ => "ok"
           | none => "error"),
   ("pinecone", if svc.storeFault then "error"
                else "ok (vectors: " ++ toString st.records.length ++ ")")]

/- ### Frontend call sites (embedded from the source under src/) -/

/-- The JSON body a frontend call site sends to `POST /api/chat`. -/
structure ChatRequest where
  user_id : Option String
  message : String
  history : List String
deriving DecidableEq, Repr

/-- From `frontend/src/components/VoiceChat.jsx`, `sendMessageToAPI`:
always sends `user_id: 'demo_user'` and `history: []`. -/
def voiceChat_sendMessageToAPI (message : String) : ChatRequest :=
  ChatRequest.mk (some "demo_user") message []

/-- A chat message as kept by the Dashboard component. -/
structure DashMessage where
  sender : String
  text : String
deriving DecidableEq, Repr

/-- From the Dashboard component's `sendMessageToAPI`: sends
`user_id: 'demo_user'` only when no authenticated user is present, and the
last 10 messages rendered as `sender: text` strings as history. -/
def dashboard_sendMessageToAPI (user : Option String) (userMessage : String)
    (messages : List DashMessage) : ChatRequest :=
  ChatRequest.mk
    (match user with
     | some _ => none
     | none => some "demo_user")
    userMessage
    ((lastN 10 messages).map (fun m => m.sender ++ ": " ++ m.text))

/- ### Concrete fixtures used to exercise the model -/

/-- Concrete healthy services: embedding always succeeds, every record
scores 1, the model always answers with one well-formed fact line. -/
def demoServices : Services :=
  Services.mk (fun t => some [Int.ofNat t.length]) (fun _ _ => 1)
    (fun _ => some "User loves jazz music | preference") false

/-- Concrete services whose vector store is completely unreachable. -/
def demoFailStore : Services :=
  Services.mk (fun t => some [Int.ofNat t.length]) (fun _ _ => 1)
    (fun _ => some "User loves jazz music | preference") true

/-- A small two-user store. -/
def demoStore : Store :=
  Store.mk
    [MemoryRecord.mk 0 [5] "Daughter Sarah lives in Ohio" Category.family 0 "u1",
     MemoryRecord.mk 1 [7] "Loves gardening" Category.preference 1 "u2"]
    2

/-- Concrete services whose language model is down. -/
def demoLLMFail : Services :=
  Services.mk (fun t => some [Int.ofNat t.length]) (fun _ _ => 1)
    (fun _ => none) false

/-- Two concrete retrieved memories, already ranked best-first. -/
def demoMems : List RetrievedMemory :=
  [RetrievedMemory.mk
     (MemoryRecord.mk 0 [5] "Daughter Sarah lives in Ohio" Category.family 0 "u1")
     1,
   RetrievedMemory.mk
     (MemoryRecord.mk 2 [3] "Drinks tea at noon" Category.preference 2 "u1")
     0]

/- ### Basic lemmas -/

theorem retrievedLE_iff (a b : RetrievedMemory) :
    retrievedLE a b = true ↔
      (b.score < a.score ∨
        (a.score = b.score ∧ b.record.timestamp ≤ a.record.timestamp)) := by
  simp [retrievedLE]

theorem retrievedLE_total (a b : RetrievedMemory) :
    (retrievedLE a b || retrievedLE b a) = true := by
  simp only [Bool.or_eq_true, retrievedLE_iff]
  rcases lt_trichotomy a.score b.score with h | h | h
  · exact Or.inr (Or.inl h)
  · rcases Nat.le_total b.record.timestamp a.record.timestamp with ht | ht
    · exact Or.inl (Or.inr ⟨h, ht⟩)
    · exact Or.inr (Or.inr ⟨h.symm, ht⟩)
  · exact Or.inl (Or.inl h)

theorem retrievedLE_trans (a b c : RetrievedMemory)
    (hab : retrievedLE a b = true) (hbc : retrievedLE b c = true) :
    retrievedLE a c = true := by
  rw [retrievedLE_iff] at hab hbc ⊢
  rcases hab with h1 | ⟨h1, t1⟩
  · rcases hbc with h2 | ⟨h2, _⟩
    · exact Or.inl (h2.trans h1)
    · exact Or.inl (h2 ▸ h1)
  · rcases hbc with h2 | ⟨h2, t2⟩
    · exact Or.inl (h1 ▸ h2)
    · exact Or.inr ⟨h1.trans h2, t2.trans t1⟩

theorem mem_rank {m : RetrievedMemory} {cands : List MemoryRecord}
    {scoreOf : MemoryRecord → ℚ} {top_k : Nat} {threshold : ℚ}
    (hm : m ∈ rank cands scoreOf top_k threshold) :
    m.record ∈ cands ∧ m.score = scoreOf m.record ∧ threshold ≤ m.score := by
  unfold rank at hm
  have h1 := List.take_subset _ _ hm
  rw [List.mem_mergeSort, List.mem_filter] at h1
  obtain ⟨hmem, hth⟩ := h1
  rw [List.mem_map] at hmem
  obtain ⟨r, hr, hrm⟩ := hmem
  subst hrm
  exact ⟨hr, rfl, by simpa using hth⟩

theorem mem_namespaceOf {r : MemoryRecord} {st : Store} {u : String} :
    r ∈ namespaceOf st u ↔ r ∈ st.records ∧ r.user_id = u := by
  simp [namespaceOf]

theorem search_memories_ok_mem {svc : Services} {st : Store}
    {q u : String} {k : Nat} {th : ℚ} {ms : List RetrievedMemory}
    (h : search_memories svc st q u k th = .ok ms) {m : RetrievedMemory}
    (hm : m ∈ ms) : m.record ∈ namespaceOf st u ∧ th ≤ m.score := by
  unfold search_memories at h
  rcases hemb : svc.embed q with _ | qv
  · rw [hemb] at h
    exact absurd h (by simp)
  · rw [hemb] at h
    by_cases hf : svc.storeFault
    · simp [hf] at h
    · simp only [hf, if_false, Bool.false_eq_true, Except.ok.injEq] at h
      subst h
      exact ⟨(mem_rank hm).1, (mem_rank hm).2.2⟩

theorem save_memory_ok {svc : Services} {st : Store} {text u : String}
    {c : Category} {p : Nat × Store}
    (h : save_memory svc st text u c = .ok p) :
    ∃ v, svc.embed text = some v ∧ svc.storeFault = false ∧
      p = (st.nextId,
        Store.mk (MemoryRecord.mk st.nextId v text c st.nextId u :: st.records)
          (st.nextId + 1)) := by
  unfold save_memory at h
  rcases hemb : svc.embed text with _ | v
  · rw [hemb] at h
    exact absurd h (by simp)
  · rw [hemb] at h
    by_cases hf : svc.storeFault
    · simp [hf] at h
    · refine ⟨v, rfl, by simpa using hf, ?_⟩
      simp only [hf, if_false, Bool.false_eq_true, Except.ok.injEq] at h
      exact h.symm

theorem save_memory_fault {svc : Services} (st : Store)
    (hf : svc.storeFault = true) (text u : String) (c : Category) :
    ∃ e, save_memory svc st text u c = .error e := by
  rcases hemb : svc.embed text with _ | v
  · exact ⟨.embeddingError, by simp [save_memory, hemb]⟩
  · exact ⟨.storeWriteError, by simp [save_memory, hemb, hf]⟩

theorem generator_generate_error {svc : Services} {p : String} {e : AIError}
    (h : generator_generate svc p = .error e) : e = .generationError := by
  unfold generator_generate at h
  rcases hl : svc.llm p with _ | s
  · rw [hl] at h
    simpa using h.symm
  · rw [hl] at h
    by_cases ht : strTrim s = ""
    · simp only [ht, if_pos, Except.error.injEq] at h
      simpa using h.symm
    · simp [ht] at h

theorem retrieve_memories_false (svc : Services) (st : Store)
    (u m : String) : retrieve_memories svc st u m false = [] := rfl

theorem retrieve_memories_fault {svc : Services} (st : Store) (u m : String)
    (inc : Bool) (hf : svc.storeFault = true) :
    retrieve_memories svc st u m inc = [] := by
  unfold retrieve_memories search_memories
  cases inc
  · rfl
  · rcases hemb : svc.embed m with _ | qv <;> simp [hemb, hf]

theorem generate_response_congr_mems {svc : Services} {st : Store}
    {u msg : String} {hist : List ConversationTurn} {inc1 inc2 ext : Bool}
    (h : retrieve_memories svc st u msg inc1
        = retrieve_memories svc st u msg inc2) :
    generate_response svc st u msg hist inc1 ext
      = generate_response svc st u msg hist inc2 ext := by
  unfold generate_response brain_prompt
  rw [h]

theorem save_facts_mono (svc : Services) (u : String) :
    ∀ (facts : List (String × Category)) (st : Store) (r : MemoryRecord),
      r ∈ st.records → r ∈ (save_facts svc st u facts).1.records := by
  intro facts
  induction facts with
  | nil => intro st r hr; exact hr
  | cons f rest ih =>
    intro st r hr
    rcases hsv : save_memory svc st f.1 u f.2 with e | p
    · simp only [save_facts, hsv]
      exact ih st r hr
    · obtain ⟨v, -, -, rfl⟩ := save_memory_ok hsv
      simp only [save_facts, hsv]
      exact ih _ r (List.mem_cons_of_mem _ hr)

theorem save_facts_sound (svc : Services) (u : String) :
    ∀ (facts : List (String × Category)) (st : Store),
      (∀ f ∈ (save_facts svc st u facts).2,
        ∃ r ∈ namespaceOf (save_facts svc st u facts).1 u, r.text = f)
      ∧ (∀ r ∈ (save_facts svc st u facts).1.records,
        r ∈ st.records ∨ (r.user_id = u ∧ r.text ∈ (save_facts svc st u facts).2)) := by
  intro facts
  induction facts with
  | nil =>
    intro st
    refine ⟨?_, ?_⟩
    · intro f hf
      cases hf
    · intro r hr
      exact Or.inl hr
  | cons f rest ih =>
    intro st
    rcases hsv : save_memory svc st f.1 u f.2 with e | p
    · simp only [save_facts, hsv]
      exact ih st
    · obtain ⟨v, -, -, rfl⟩ := save_memory_ok hsv
      simp only [save_facts, hsv]
      constructor
      · intro g hg
        rw [List.mem_cons] at hg
        rcases hg with hg | hg
        · refine ⟨MemoryRecord.mk st.nextId v f.1 f.2 st.nextId u, ?_, hg.symm⟩
          rw [mem_namespaceOf]
          exact ⟨save_facts_mono svc u rest _ _ (List.mem_cons_self _ _), rfl⟩
        · obtain ⟨r, hrmem, hrtext⟩ := (ih _).1 g hg
          exact ⟨r, hrmem, hrtext⟩
      · intro r hr
        rcases (ih _).2 r hr with hmem | ⟨huid, htext⟩
        · rw [List.mem_cons] at hmem
          rcases hmem with hmem | hmem
          · subst hmem
            exact Or.inr ⟨rfl, List.mem_cons_self _ _⟩
          · exact Or.inl hmem
        · exact Or.inr ⟨huid, List.mem_cons_of_mem _ htext⟩

theorem rank_complete {cands : List MemoryRecord}
    {scoreOf : MemoryRecord → ℚ} {k : Nat} {th : ℚ}
    (hall : ∀ r ∈ cands, th ≤ scoreOf r) (hk : cands.length ≤ k)
    {r : MemoryRecord} (hr : r ∈ cands) :
    ∃ m ∈ rank cands scoreOf k th, m.record = r := by
  unfold rank
  have hfilter : ((cands.map fun x => RetrievedMemory.mk x (scoreOf x)).filter
      (fun m => decide (th ≤ m.score)))
        = cands.map fun x => RetrievedMemory.mk x (scoreOf x) := by
    refine List.filter_eq_self.2 ?_
    intro m hm
    rw [List.mem_map] at hm
    obtain ⟨x, hx, rfl⟩ := hm
    simpa using hall x hx
  rw [hfilter]
  have hlen : (((cands.map fun x => RetrievedMemory.mk x (scoreOf x)).mergeSort
      retrievedLE)).length ≤ k := by
    have hp := List.mergeSort_perm
      (cands.map fun x => RetrievedMemory.mk x (scoreOf x)) retrievedLE
    rw [hp.length_eq]
    simpa using hk
  rw [List.take_of_length_le hlen]
  refine ⟨RetrievedMemory.mk r (scoreOf r), ?_, rfl⟩
  rw [List.mem_mergeSort]
  exact List.mem_map.2 ⟨r, hr, rfl⟩

/- ### Claim theorems -/

/-- C2: for every query text, user identity and `top_k = k`,
`search_memories` returns at most `k` entries, each with score ≥ the
relevance threshold, sorted non-increasingly by score with ties broken by
most-recent timestamp first, and returns the empty sequence rather than
failing when the namespace has no qualifying match (given that the query
embeds and the store transport is healthy — otherwise the documented
`EmbeddingError` / `StoreReadError` is raised instead). -/
theorem search_memories_spec (svc : Services) (st : Store) (q u : String)
    (k : Nat) (th : ℚ) (qv : List Int)
    (hembed : svc.embed q = some qv) (hok : svc.storeFault = false) :
    ∃ ms, search_memories svc st q u k th = .ok ms
      ∧ ms.length ≤ k
      ∧ (∀ m ∈ ms, th ≤ m.score)
      ∧ List.Pairwise (fun a b => b.score < a.score ∨
          (a.score = b.score ∧ b.record.timestamp ≤ a.record.timestamp)) ms
      ∧ ((∀ r ∈ namespaceOf st u, svc.sim qv r.embedding < th) → ms = []) := by
  refine ⟨rank (namespaceOf st u) (fun r => svc.sim qv r.embedding) k th,
    ?_, ?_, ?_, ?_, ?_⟩
  · simp [search_memories, hembed, hok]
  · unfold rank
    simp only [List.length_take]
    exact Nat.min_le_left _ _
  · intro m hm
    exact (mem_rank hm).2.2
  · unfold rank
    refine List.Pairwise.imp (fun hab => (retrievedLE_iff _ _).1 hab) ?_
    refine List.Pairwise.sublist (List.take_sublist _ _) ?_
    exact List.sorted_mergeSort retrievedLE_trans retrievedLE_total _
  · intro hall
    unfold rank
    have hnil : ((namespaceOf st u).map
        (fun r => RetrievedMemory.mk r (svc.sim qv r.embedding))).filter
        (fun m => decide (th ≤ m.score)) = [] := by
      rw [List.filter_eq_nil_iff]
      intro m hmem
      rw [List.mem_map] at hmem
      obtain ⟨r, hr, rfl⟩ := hmem
      simpa using not_le.2 (hall r hr)
    rw [hnil]
    simp

/-- Witness for `search_memories_spec` at a concrete query. -/
theorem search_memories_spec_witness :
    ∃ ms, search_memories demoServices demoStore "daughter" "u1" 5
        MEMORY_RELEVANCE_THRESHOLD = .ok ms
      ∧ ms.length ≤ 5
      ∧ (∀ m ∈ ms, MEMORY_RELEVANCE_THRESHOLD ≤ m.score)
      ∧ List.Pairwise (fun a b => b.score < a.score ∨
          (a.score = b.score ∧ b.record.timestamp ≤ a.record.timestamp)) ms
      ∧ ((∀ r ∈ namespaceOf demoStore "u1",
            demoServices.sim [Int.ofNat 8] r.embedding
              < MEMORY_RELEVANCE_THRESHOLD) → ms = []) :=
  search_memories_spec demoServices demoStore "daughter" "u1" 5
    MEMORY_RELEVANCE_THRESHOLD [Int.ofNat 8] rfl rfl

/-- C1: namespace isolation.  A fact saved under `A` is never contained in
the result of any `search_memories` query issued under `B ≠ A`: every
result of a query under `B` belongs to `B`'s namespace; saving under `A`
leaves `B`'s namespace unchanged, as does deleting `A`'s namespace; and a
query under `B` reads only `B`'s namespace (it returns the same results in
any two stores whose `B`-namespaces agree). -/
theorem namespace_isolation (svc : Services) (st : Store)
    (A B text : String) (cat : Category) (hAB : A ≠ B) :
    (∀ idA stA, save_memory svc st text A cat = .ok (idA, stA) →
      ((∀ q k th ms, search_memories svc stA q B k th = .ok ms →
          ∀ m ∈ ms, m.record.user_id = B ∧ m.record.user_id ≠ A)
        ∧ namespaceOf stA B = namespaceOf st B))
    ∧ namespaceOf (delete_user_memories st A) B = namespaceOf st B
    ∧ (∀ st2 q k th, namespaceOf st B = namespaceOf st2 B →
        search_memories svc st q B k th = search_memories svc st2 q B k th) := by
  refine ⟨?_, ?_, ?_⟩
  · intro idA stA hsave
    constructor
    · intro q k th ms hs m hm
      have h1 := (search_memories_ok_mem hs hm).1
      have h2 := (mem_namespaceOf.1 h1).2
      exact ⟨h2, by rw [h2]; exact fun hBA => hAB hBA.symm⟩
    · unfold save_memory at hsave
      rcases hemb : svc.embed text with _ | v
      · rw [hemb] at hsave
        exact absurd hsave (by simp)
      · rw [hemb] at hsave
        by_cases hf : svc.storeFault
        · simp [hf] at hsave
        · simp only [hf, if_false, Bool.false_eq_true, Except.ok.injEq,
            Prod.mk.injEq] at hsave
          obtain ⟨-, rfl⟩ := hsave
          unfold namespaceOf
          simp only [List.filter_cons]
          have hne : ((MemoryRecord.mk st.nextId v text cat st.nextId
              A).user_id == B) = false := by
            simpa using hAB
          simp [hne]
  · show (st.records.filter (fun r => !(r.user_id == A))).filter
        (fun r => r.user_id == B) = st.records.filter (fun r => r.user_id == B)
    have hBA : ¬B = A := fun h => hAB h.symm
    induction st.records with
    | nil => rfl
    | cons r rs ih =>
      by_cases hB : r.user_id = B
      · have hA : (r.user_id == A) = false := by
          simpa [hB] using hBA
        simp [List.filter_cons, hB, hA, hBA, ih]
      · by_cases hA : r.user_id = A
        · simp [List.filter_cons, hA, hB, hAB, ih]
        · simp [List.filter_cons, hA, hB, ih]
  · intro st2 q k th hns
    unfold search_memories
    rw [hns]

/-- Witness for `namespace_isolation` at a concrete pair of users: a
concrete save under `u1` leaves the namespace of `u2` unchanged. -/
theorem namespace_isolation_witness :
    namespaceOf (Store.mk
        (MemoryRecord.mk 2 [Int.ofNat 9] "Loves tea" Category.preference 2 "u1"
          :: demoStore.records) 3) "u2"
      = namespaceOf demoStore "u2" :=
  ((namespace_isolation demoServices demoStore "u1" "u2" "Loves tea"
      Category.preference (by decide)).1 2
    (Store.mk
      (MemoryRecord.mk 2 [Int.ofNat 9] "Loves tea" Category.preference 2 "u1"
        :: demoStore.records) 3) rfl).2

/-- C7: `delete_user_memories` is idempotent: deleting twice equals deleting
once, the namespace count is 0 after any delete, and deleting an
already-empty namespace succeeds silently leaving the store untouched. -/
theorem delete_user_memories_idempotent (st : Store) (u : String) :
    delete_user_memories (delete_user_memories st u) u
        = delete_user_memories st u
    ∧ get_memory_stats (delete_user_memories st u) u = 0
    ∧ (get_memory_stats st u = 0 → delete_user_memories st u = st) := by
  refine ⟨?_, ?_, ?_⟩
  · unfold delete_user_memories
    congr 1
    refine List.filter_eq_self.2 ?_
    intro r hr
    exact (List.mem_filter.1 hr).2
  · unfold get_memory_stats namespaceOf delete_user_memories
    simp only [List.length_eq_zero, List.filter_eq_nil_iff]
    intro r hr
    have := (List.mem_filter.1 hr).2
    simp at this
    simp [this]
  · intro h0
    unfold get_memory_stats at h0
    rw [List.length_eq_zero] at h0
    unfold delete_user_memories
    have hself : st.records.filter (fun r => !(r.user_id == u)) = st.records := by
      refine List.filter_eq_self.2 ?_
      intro r hr
      by_contra hne
      have hmem : r ∈ namespaceOf st u := by
        rw [mem_namespaceOf]
        refine ⟨hr, ?_⟩
        simpa using hne
      rw [h0] at hmem
      exact absurd hmem (List.not_mem_nil _)
    rw [hself]

/-- Witness for `delete_user_memories_idempotent`: deleting a never-used
namespace leaves the concrete store untouched. -/
theorem delete_user_memories_idempotent_witness :
    delete_user_memories demoStore "u3" = demoStore :=
  (delete_user_memories_idempotent demoStore "u3").2.2 (by decide)

/-- C8: `health_check` is total (it never raises) and returns one status
entry per dependency under every combination of probe outcomes; the
language-model entry depends only on the language-model probe and the
vector-store entry only on the vector-store probe, so failure of one probe
cannot prevent the other from being reported. -/
theorem health_check_total (svc : Services) (st : Store) :
    ((health_check svc st).lookup "llm").isSome = true
    ∧ ((health_check svc st).lookup "pinecone").isSome = true
    ∧ (∀ svc2 st2, svc2.llm = svc.llm →
        (health_check svc2 st2).lookup "llm"
          = (health_check svc st).lookup "llm")
    ∧ (∀ svc2, svc2.storeFault = svc.storeFault →
        (health_check svc2 st).lookup "pinecone"
          = (health_check svc st).lookup "pinecone") := by
  refine ⟨?_, ?_, ?_, ?_⟩
  · simp [health_check, List.lookup]
  · simp [health_check, List.lookup]
  · intro svc2 st2 h
    simp [health_check, List.lookup, h]
  · intro svc2 h
    simp [health_check, List.lookup, h]

/-- Witness for `health_check_total`: with the store unreachable, the
language-model entry is reported exactly as under healthy services. -/
theorem health_check_total_witness :
    (health_check demoFailStore demoStore).lookup "llm"
      = (health_check demoServices demoStore).lookup "llm" :=
  (health_check_total demoServices demoStore).2.2.1 demoFailStore demoStore rfl

/-- C10: every chat request built by the VoiceChat overlay carries the fixed
identity `demo_user` and an empty history, and the Dashboard substitutes
`demo_user` exactly when no authenticated user is present, so all
unauthenticated call sites address the one shared namespace `demo_user`. -/
theorem demo_user_fallback (message : String) (messages : List DashMessage) :
    (voiceChat_sendMessageToAPI message).user_id = some "demo_user"
    ∧ (voiceChat_sendMessageToAPI message).history = []
    ∧ (dashboard_sendMessageToAPI none message messages).user_id
        = some "demo_user"
    ∧ (∀ u, (dashboard_sendMessageToAPI (some u) message messages).user_id
        = none)
    ∧ (dashboard_sendMessageToAPI none message messages).user_id
        = (voiceChat_sendMessageToAPI message).user_id :=
  ⟨rfl, rfl, rfl, fun _ => rfl, rfl⟩

/-- C3: for every input on which the language-model service succeeds,
`generate_response` returns a reply string, even when the vector store is
completely unreachable; any retrieval failure (`EmbeddingError` or
`StoreReadError`) is absorbed locally and the pipeline proceeds exactly as
with zero memories retrieved, surfacing no error to the caller. -/
theorem generate_response_resilient (svc : Services) (st : Store)
    (u msg : String) (hist : List ConversationTurn) (inc ext : Bool)
    (hllm : ∀ p, ∃ s, svc.llm p = some s ∧ strTrim s ≠ "") :
    (∃ reply, (generate_response svc st u msg hist inc ext).1 = .ok reply)
    ∧ (svc.storeFault = true →
        generate_response svc st u msg hist inc ext
          = generate_response svc st u msg hist false ext)
    ∧ (∀ e, search_memories svc st msg u MEMORY_TOP_K
          MEMORY_RELEVANCE_THRESHOLD = .error e →
        generate_response svc st u msg hist true ext
          = generate_response svc st u msg hist false ext) := by
  refine ⟨?_, ?_, ?_⟩
  · obtain ⟨s, hs, hne⟩ := hllm (brain_prompt svc st u msg hist inc)
    refine ⟨s, ?_⟩
    have hgen : generator_generate svc (brain_prompt svc st u msg hist inc)
        = .ok s := by
      unfold generator_generate
      rw [hs]
      simp [hne]
    unfold generate_response
    rw [hgen]
    cases ext <;> simp
  · intro hf
    exact generate_response_congr_mems
      ((retrieve_memories_fault st u msg inc hf).trans
        (retrieve_memories_false svc st u msg).symm)
  · intro e he
    refine generate_response_congr_mems ?_
    unfold retrieve_memories
    simp [he]

/-- Witness for `generate_response_resilient`: with the vector store
unreachable the call still returns a reply, identical to the
memories-disabled pipeline. -/
theorem generate_response_resilient_witness :
    (∃ reply,
      (generate_response demoFailStore demoStore "u1" "Hello" [] true true).1
        = .ok reply)
    ∧ (demoFailStore.storeFault = true →
        generate_response demoFailStore demoStore "u1" "Hello" [] true true
          = generate_response demoFailStore demoStore "u1" "Hello" [] false true)
    ∧ (∀ e, search_memories demoFailStore demoStore "Hello" "u1" MEMORY_TOP_K
          MEMORY_RELEVANCE_THRESHOLD = .error e →
        generate_response demoFailStore demoStore "u1" "Hello" [] true true
          = generate_response demoFailStore demoStore "u1" "Hello" [] false true) :=
  generate_response_resilient demoFailStore demoStore "u1" "Hello" [] true true
    (fun _ => ⟨"User loves jazz music | preference", rfl, by decide⟩)

/-- C4: a failure of the generation step propagates to the caller verbatim
as `GenerationError`, it is the only error `generate_response` can surface,
and on generator success the reply is exactly the generator's completion —
there is no local fallback reply text. -/
theorem generation_failure_propagates (svc : Services) (st : Store)
    (u msg : String) (hist : List ConversationTurn) (inc ext : Bool) :
    (∀ e, (generate_response svc st u msg hist inc ext).1 = .error e ↔
        generator_generate svc (brain_prompt svc st u msg hist inc) = .error e)
    ∧ (∀ e, (generate_response svc st u msg hist inc ext).1 = .error e →
        e = .generationError)
    ∧ (∀ r, generator_generate svc (brain_prompt svc st u msg hist inc)
          = .ok r →
        (generate_response svc st u msg hist inc ext).1 = .ok r) := by
  have hmain : ∀ e, (generate_response svc st u msg hist inc ext).1 = .error e ↔
      generator_generate svc (brain_prompt svc st u msg hist inc) = .error e := by
    intro e
    unfold generate_response
    rcases hg : generator_generate svc (brain_prompt svc st u msg hist inc)
      with e2 | r
    · simp
    · cases ext <;> simp
  refine ⟨hmain, ?_, ?_⟩
  · intro e he
    exact generator_generate_error ((hmain e).1 he)
  · intro r hg
    unfold generate_response
    rw [hg]
    cases ext <;> simp

/-- Witness for `generation_failure_propagates`: with the language model
down, the call surfaces exactly `GenerationError`. -/
theorem generation_failure_propagates_witness :
    (generate_response demoLLMFail demoStore "u1" "Hello" [] true true).1
      = .error .generationError :=
  ((generation_failure_propagates demoLLMFail demoStore "u1" "Hello" [] true
      true).1 .generationError).2 rfl

/-- C5: failures in the learning path never propagate to the caller of
either orchestrator entry point: the async entry point's reply is unchanged
by the learning flag, the sync entry point returns the reply whenever
generation succeeds, an extraction-model failure yields no facts rather
than an error, a store-write fault merely persists nothing, malformed
extraction lines are skipped, and a fully-malformed extraction response
yields the empty extraction result rather than an error. -/
theorem learning_path_absorbed (svc : Services) (st : Store)
    (u msg : String) (hist : List ConversationTurn) (inc : Bool) :
    ((generate_response svc st u msg hist inc true).1
      = (generate_response svc st u msg hist inc false).1)
    ∧ (∀ reply, generator_generate svc (brain_prompt svc st u msg hist inc)
          = .ok reply →
        ∃ facts st2, generate_response_sync svc st u msg hist inc
          = (.ok (SyncResult.mk reply facts), st2))
    ∧ (∀ reply, svc.llm (extraction_prompt msg reply) = none →
        run_extraction svc st u msg reply = (st, []))
    ∧ (svc.storeFault = true →
        ∀ facts, save_facts svc st u facts = (st, []))
    ∧ (∀ pre post l, parse_fact_line l = none →
        (pre ++ l :: post).filterMap parse_fact_line
          = (pre ++ post).filterMap parse_fact_line)
    ∧ (∀ raw, (∀ l ∈ extractionLines raw, parse_fact_line l = none) →
        parse_extraction raw = []) := by
  refine ⟨?_, ?_, ?_, ?_, ?_, ?_⟩
  · unfold generate_response
    rcases hg : generator_generate svc (brain_prompt svc st u msg hist inc)
      with e | r <;> simp [hg]
  · intro reply hg
    unfold generate_response_sync
    rw [hg]
    exact ⟨_, _, rfl⟩
  · intro reply h
    unfold run_extraction
    rw [h]
  · intro hf facts
    induction facts with
    | nil => rfl
    | cons f rest ih =>
      obtain ⟨e, he⟩ := save_memory_fault st hf f.1 u f.2
      simp only [save_facts, he]
      exact ih
  · intro pre post l h
    simp [List.filterMap_append, List.filterMap_cons, h]
  · intro raw hall
    unfold parse_extraction
    rw [List.filterMap_eq_nil_iff]
    exact hall

/-- Witness for `learning_path_absorbed`: a fully-malformed extraction
response parses to the empty result instead of failing. -/
theorem learning_path_absorbed_witness :
    parse_extraction "I could not find any personal facts." = [] :=
  (learning_path_absorbed demoServices demoStore "u1" "Hello" [] true).2.2.2.2.2
    "I could not find any personal facts." (by decide)

theorem filterMap_memoryOf_memoriesBlock (mems : List RetrievedMemory) :
    (memoriesBlock mems).filterMap PromptPart.memoryOf
      = mems.map (fun m => (m.record.text, m.score)) := by
  induction mems with
  | nil => rfl
  | cons m t ih =>
    simpa [memoriesBlock, List.filterMap_cons, PromptPart.memoryOf] using ih

theorem filterMap_turnOf_memoriesBlock (mems : List RetrievedMemory) :
    (memoriesBlock mems).filterMap PromptPart.turnOf = [] := by
  induction mems with
  | nil => rfl
  | cons m t ih =>
    simp [memoriesBlock, List.filterMap_cons, PromptPart.turnOf, ih]

theorem filterMap_turnOf_historyBlock (n : Nat) (hist : List ConversationTurn) :
    (historyBlock n hist).filterMap PromptPart.turnOf
      = (lastN n hist).map (fun t => (t.role, t.text)) := by
  unfold historyBlock
  induction lastN n hist with
  | nil => rfl
  | cons t ts ih =>
    simpa [List.filterMap_cons, PromptPart.turnOf] using ih

theorem filterMap_memoryOf_historyBlock (n : Nat)
    (hist : List ConversationTurn) :
    (historyBlock n hist).filterMap PromptPart.memoryOf = [] := by
  unfold historyBlock
  induction lastN n hist with
  | nil => rfl
  | cons t ts ih =>
    simp [List.filterMap_cons, PromptPart.memoryOf, ih]

/-- C6: `PromptComposer` is a pure function of its arguments that assembles
the prompt in fixed order — persona block first, then the retrieved
memories exactly in their given (score-descending) order, then the most
recent `max_history` turns of the history in chronological order (a suffix
of the supplied history, of length at most `max_history`, with the default
`MAX_HISTORY_MESSAGES = 10`), then the current user message last — and with
zero retrieved memories no memory part appears in the output at all. -/
theorem compose_prompt_spec (persona : String) (mems : List RetrievedMemory)
    (hist : List ConversationTurn) (msg : String) (n : Nat) :
    (compose_prompt persona mems hist msg n).head? = some (.persona persona)
    ∧ (compose_prompt persona mems hist msg n).getLast? = some (.current msg)
    ∧ (∃ mb hb, compose_prompt persona mems hist msg n
          = PromptPart.persona persona :: (mb ++ hb ++ [PromptPart.current msg])
        ∧ (∀ p ∈ mb, ∃ t s, p = PromptPart.memory t s)
        ∧ (∀ p ∈ hb, ∃ r t, p = PromptPart.turn r t))
    ∧ (compose_prompt persona mems hist msg n).filterMap PromptPart.memoryOf
        = mems.map (fun m => (m.record.text, m.score))
    ∧ (compose_prompt persona mems hist msg n).filterMap PromptPart.turnOf
        = (lastN n hist).map (fun t => (t.role, t.text))
    ∧ lastN n hist <:+ hist
    ∧ (lastN n hist).length ≤ n
    ∧ (mems.Pairwise (fun a b => b.score ≤ a.score) →
        ((compose_prompt persona mems hist msg n).filterMap
            PromptPart.memoryOf).Pairwise (fun a b => b.2 ≤ a.2))
    ∧ (mems = [] → ∀ p ∈ compose_prompt persona mems hist msg n,
        ∀ t s, p ≠ PromptPart.memory t s)
    ∧ MAX_HISTORY_MESSAGES = 10 := by
  have hfm : (compose_prompt persona mems hist msg n).filterMap
      PromptPart.memoryOf = mems.map (fun m => (m.record.text, m.score)) := by
    unfold compose_prompt
    rw [List.filterMap_cons]
    simp only [PromptPart.memoryOf, List.filterMap_append,
      filterMap_memoryOf_memoriesBlock, filterMap_memoryOf_historyBlock]
    simp [List.filterMap_cons, PromptPart.memoryOf]
  refine ⟨rfl, ?_, ?_, hfm, ?_, ?_, ?_, ?_, ?_, rfl⟩
  · have hsplit : compose_prompt persona mems hist msg n
        = (PromptPart.persona persona ::
            (memoriesBlock mems ++ historyBlock n hist))
          ++ [PromptPart.current msg] := by
      unfold compose_prompt
      simp
    rw [hsplit, List.getLast?_concat]
  · refine ⟨memoriesBlock mems, historyBlock n hist, rfl, ?_, ?_⟩
    · intro p hp
      obtain ⟨m, -, rfl⟩ := List.mem_map.1 hp
      exact ⟨m.record.text, m.score, rfl⟩
    · intro p hp
      obtain ⟨t, -, rfl⟩ := List.mem_map.1 hp
      exact ⟨t.role, t.text, rfl⟩
  · unfold compose_prompt
    rw [List.filterMap_cons]
    simp only [PromptPart.turnOf, List.filterMap_append,
      filterMap_turnOf_memoriesBlock, filterMap_turnOf_historyBlock]
    simp [List.filterMap_cons, PromptPart.turnOf]
  · exact List.drop_suffix _ _
  · simp only [lastN, List.length_drop]
    omega
  · intro hsorted
    rw [hfm, List.pairwise_map]
    exact hsorted.imp (fun hab => hab)
  · intro hm p hp t s
    subst hm
    have hsplit : p = PromptPart.persona persona ∨ p ∈ historyBlock n hist
        ∨ p = PromptPart.current msg := by
      rcases List.mem_cons.1 hp with h | h
      · exact Or.inl h
      · rw [show memoriesBlock ([] : List RetrievedMemory)
              ++ historyBlock n hist ++ [PromptPart.current msg]
            = historyBlock n hist ++ [PromptPart.current msg] from rfl] at h
        rcases List.mem_append.1 h with h | h
        · exact Or.inr (Or.inl h)
        · exact Or.inr (Or.inr (List.mem_singleton.1 h))
    rcases hsplit with rfl | h | rfl
    · simp
    · obtain ⟨x, -, rfl⟩ := List.mem_map.1
        (show p ∈ (lastN n hist).map
          (fun t => PromptPart.turn t.role t.text) from h)
      simp
    · simp

/-- Witness for `compose_prompt_spec`: the composed prompt preserves the
descending score order of two concrete retrieved memories. -/
theorem compose_prompt_spec_witness :
    ((compose_prompt SYSTEM_PROMPT demoMems [] "Hello"
        MAX_HISTORY_MESSAGES).filterMap
      PromptPart.memoryOf).Pairwise (fun a b => b.2 ≤ a.2) :=
  (compose_prompt_spec SYSTEM_PROMPT demoMems [] "Hello"
      MAX_HISTORY_MESSAGES).2.2.2.2.2.2.2.1 (by decide)

/-- C9: `generate_response_sync` returns only after the learning step
completes: whenever generation succeeds its result is the reply together
with exactly the facts persisted during the call (each returned fact is
stored under the same user in the returned store, and every record not
already present is one of the returned facts for that user), and each such
fact is subsequently retrievable through `search_memories` for the same
user whenever the similarity metric scores the namespace at or above the
threshold and `top_k` covers the namespace. -/
theorem generate_response_sync_spec (svc : Services) (st : Store)
    (u msg : String) (hist : List ConversationTurn) (inc : Bool)
    (reply : String)
    (hgen : generator_generate svc (brain_prompt svc st u msg hist inc)
      = .ok reply) :
    ∃ facts st2,
      generate_response_sync svc st u msg hist inc
        = (.ok (SyncResult.mk reply facts), st2)
      ∧ run_extraction svc st u msg reply = (st2, facts)
      ∧ (∀ f ∈ facts, ∃ r ∈ namespaceOf st2 u, r.text = f)
      ∧ (∀ r ∈ st2.records, r ∈ st.records
          ∨ (r.user_id = u ∧ r.text ∈ facts))
      ∧ (∀ f ∈ facts, ∀ (q : String) (qv : List Int) (k : Nat) (th : ℚ),
          svc.embed q = some qv → svc.storeFault = false →
          (∀ r ∈ namespaceOf st2 u, th ≤ svc.sim qv r.embedding) →
          (namespaceOf st2 u).length ≤ k →
          ∃ ms, search_memories svc st2 q u k th = .ok ms
            ∧ ∃ m ∈ ms, m.record.text = f) := by
  have hfacts : ∀ f ∈ (run_extraction svc st u msg reply).2,
      ∃ r ∈ namespaceOf (run_extraction svc st u msg reply).1 u, r.text = f := by
    rcases hx : svc.llm (extraction_prompt msg reply) with _ | raw
    · simp [run_extraction, hx]
    · simpa [run_extraction, hx] using
        (save_facts_sound svc u (parse_extraction raw) st).1
  have hnew : ∀ r ∈ (run_extraction svc st u msg reply).1.records,
      r ∈ st.records
        ∨ (r.user_id = u ∧ r.text ∈ (run_extraction svc st u msg reply).2) := by
    rcases hx : svc.llm (extraction_prompt msg reply) with _ | raw
    · intro r hr
      simp only [run_extraction, hx] at hr
      exact Or.inl hr
    · simpa [run_extraction, hx] using
        (save_facts_sound svc u (parse_extraction raw) st).2
  refine ⟨(run_extraction svc st u msg reply).2,
    (run_extraction svc st u msg reply).1, ?_, rfl, hfacts, hnew, ?_⟩
  · unfold generate_response_sync
    rw [hgen]
  · intro f hf q qv k th hemb hok hall hk
    obtain ⟨r, hrmem, hrtext⟩ := hfacts f hf
    refine ⟨rank (namespaceOf (run_extraction svc st u msg reply).1 u)
        (fun x => svc.sim qv x.embedding) k th, ?_, ?_⟩
    · unfold search_memories
      rw [hemb]
      simp [hok]
    · obtain ⟨m, hm, hmr⟩ := rank_complete hall hk hrmem
      exact ⟨m, hm, by rw [hmr, hrtext]⟩

/-- Witness for `generate_response_sync_spec`: the concrete sync call
persists the extracted fact and returns it. -/
theorem generate_response_sync_spec_witness :
    ∃ facts st2,
      generate_response_sync demoServices demoStore "u1" "Hello" [] true
        = (.ok (SyncResult.mk "User loves jazz music | preference" facts), st2)
      ∧ run_extraction demoServices demoStore "u1" "Hello"
          "User loves jazz music | preference" = (st2, facts)
      ∧ (∀ f ∈ facts, ∃ r ∈ namespaceOf st2 "u1", r.text = f)
      ∧ (∀ r ∈ st2.records, r ∈ demoStore.records
          ∨ (r.user_id = "u1" ∧ r.text ∈ facts))
      ∧ (∀ f ∈ facts, ∀ (q : String) (qv : List Int) (k : Nat) (th : ℚ),
          demoServices.embed q = some qv → demoServices.storeFault = false →
          (∀ r ∈ namespaceOf st2 "u1", th ≤ demoServices.sim qv r.embedding) →
          (namespaceOf st2 "u1").length ≤ k →
          ∃ ms, search_memories demoServices st2 q "u1" k th = .ok ms
            ∧ ∃ m ∈ ms, m.record.text = f) :=
  generate_response_sync_spec demoServices demoStore "u1" "Hello" [] true
    "User loves jazz music | preference" rfl

end Reminisce
